import Mathlib

/-!
Verification of the mesh agents `SolWalletAgent` (mesh/sol_wallet_agent.py) and
`BitquerySolanaTokenInfoAgent` (mesh/bitquery_solana_token_info_agent.py).

The Python code is shallowly embedded: every network call (Helius, Bitquery,
LLM) is an input to the embedded function, given either as an explicit value or
as an oracle function; Python floats are modelled as rationals; Python dicts
with optional keys are modelled as structures with `Option` fields, where
`none` stands for an absent (or falsy-empty) key; an exception raised by an
upstream call and caught by a broad `except` clause is modelled by the
constructor `FetchOutcome.failure`.  Python `sorted` is a stable sort; it is
embedded as the stable insertion sort `sortByRel` below.
-/

/-! ## Generic stable sort, embedding Python `sorted(xs, key=k, reverse=...)`

`insertSorted le x l` places `x` before the first element `y` of `l` with
`le x y = true`.  With `le x y := k y ≤ k x` this is Python
`sorted(xs, key=k, reverse=True)` (stable, non-increasing keys); with
`le x y := k x ≤ k y` it is Python `sorted(xs, key=k)` (stable,
non-decreasing keys). -/

def insertSorted (le : α → α → Bool) (x : α) : List α → List α
  | [] => [x]
  | y :: ys => if le x y then x :: y :: ys else y :: insertSorted le x ys

def sortByRel (le : α → α → Bool) (l : List α) : List α :=
  l.foldr (insertSorted le) []

theorem mem_insertSorted (le : α → α → Bool) (x : α) (l : List α) (a : α) :
    a ∈ insertSorted le x l ↔ a = x ∨ a ∈ l := by
  induction l with
  | nil => simp [insertSorted]
  | cons y ys ih =>
    by_cases h : le x y
    · simp [insertSorted, h]
    · simp [insertSorted, h, ih]
      tauto

theorem pairwise_insertSorted (le : α → α → Bool)
    (total : ∀ a b, le a b = true ∨ le b a = true)
    (trans : ∀ a b c, le a b = true → le b c = true → le a c = true)
    (x : α) (l : List α) (hl : l.Pairwise (fun a b => le a b = true)) :
    (insertSorted le x l).Pairwise (fun a b => le a b = true) := by
  induction l with
  | nil => simp [insertSorted]
  | cons y ys ih =>
    rcases List.pairwise_cons.mp hl with ⟨hy, hys⟩
    by_cases h : le x y
    · simp only [insertSorted, h, if_pos]
      refine List.pairwise_cons.mpr ⟨?_, hl⟩
      intro b hb
      rcases List.mem_cons.mp hb with rfl | hb
      · exact h
      · exact trans x y b h (hy b hb)
    · simp only [insertSorted, h, if_neg, Bool.not_eq_true]
      refine List.pairwise_cons.mpr ⟨?_, ih hys⟩
      intro b hb
      rcases (mem_insertSorted le x ys b).mp hb with rfl | hb
      · rcases total y b with hyb | hby
        · exact hyb
        · exact absurd hby h
      · exact hy b hb

theorem pairwise_sortByRel (le : α → α → Bool)
    (total : ∀ a b, le a b = true ∨ le b a = true)
    (trans : ∀ a b c, le a b = true → le b c = true → le a c = true)
    (l : List α) :
    (sortByRel le l).Pairwise (fun a b => le a b = true) := by
  induction l with
  | nil => simp [sortByRel]
  | cons x xs ih =>
    exact pairwise_insertSorted le total trans x _ ih

/-! ## Data model for `SolWalletAgent.get_wallet_assets`

The Helius `searchAssets` JSON response is embedded field-by-field.
`Option` fields model keys read with `.get(key, default)` in the source;
`result = none` also covers a falsy (empty-dict) `result`, matching the
truthiness test `if isinstance(data, dict) and not data.get("result")`. -/

def sol_address : String := "So11111111111111111111111111111111111111112"

def raydium_address : String := "5Q544fKrFoe6tsEbD7S8EmxGTJYAKtTVhAW5Q5pge4j1"

structure FileEntry where
  cdn_uri : Option String
deriving DecidableEq

structure PriceInfo where
  price_per_token : Option ℚ
  total_price : Option ℚ
deriving DecidableEq

structure TokenInfo where
  symbol : Option String
  price_info : Option PriceInfo
deriving DecidableEq

structure HeliusItem where
  id : String
  content_files : List FileEntry
  token_info : Option TokenInfo
  mutable : Bool
deriving DecidableEq

structure NativeBalance where
  price_per_sol : Option ℚ
  total_price : Option ℚ
deriving DecidableEq

structure HeliusResult where
  items : Option (List HeliusItem)
  nativeBalance : Option NativeBalance
deriving DecidableEq

structure HeliusResponse where
  result : Option HeliusResult
deriving DecidableEq

/-- Outcome of one upstream `_post` call as seen by `get_wallet_assets`:
`failure` models a raised transport error, timeout, or any exception caught
by the broad `except` clause (including a `KeyError` from a malformed shape);
`ok` carries a parsed JSON body. -/
inductive FetchOutcome where
  | failure
  | ok (resp : HeliusResponse)
deriving DecidableEq

/-- One normalized asset entry produced by `get_wallet_assets`
(a `hold_tokens` element in the source). -/
structure AssetHolding where
  token_address : String
  token_img : String
  symbol : String
  price_per_token : ℚ
  total_price : ℚ
deriving DecidableEq

/-- The list-comprehension filter in `get_wallet_assets`:
`item.get("token_info", {}).get("price_info") and
 item["token_info"]["price_info"].get("total_price", 0) > 100`. -/
def passes_price_filter (item : HeliusItem) : Bool :=
  match item.token_info with
  | some ti =>
    match ti.price_info with
    | some pi => decide (pi.total_price.getD 0 > 100)
    | none => false
  | none => false

/-- The dict built for each non-mutable asset in `get_wallet_assets`. -/
def asset_to_holding (asset : HeliusItem) : AssetHolding :=
  { token_address := asset.id
    token_img :=
      match asset.content_files with
      | f :: _ => f.cdn_uri.getD ""
      | [] => ""
    symbol := (asset.token_info.bind (fun ti => ti.symbol)).getD ""
    price_per_token :=
      ((asset.token_info.bind (fun ti => ti.price_info)).bind
        (fun pi => pi.price_per_token)).getD 0
    total_price :=
      ((asset.token_info.bind (fun ti => ti.price_info)).bind
        (fun pi => pi.total_price)).getD 0 }

/-- The native-SOL entry prepended by `get_wallet_assets` when the response
carries a (truthy) `nativeBalance`. -/
def native_sol_holding (nb : NativeBalance) : AssetHolding :=
  { token_address := sol_address
    token_img := ""
    symbol := "SOL"
    price_per_token := nb.price_per_sol.getD 0
    total_price := nb.total_price.getD 0 }

/-- `SolWalletAgent.get_wallet_assets`.  A `failure` outcome, a missing or
falsy `result`, and a missing `items` key (a `KeyError` caught by the broad
`except`) all yield the empty list. -/
def get_wallet_assets : FetchOutcome → List AssetHolding
  | .failure => []
  | .ok resp =>
    match resp.result with
    | none => []
    | some r =>
      match r.items with
      | none => []
      | some items =>
        let filtered_assets := items.filter passes_price_filter
        let non_mutable_assets := filtered_assets.filter (fun a => !a.mutable)
        let native :=
          match r.nativeBalance with
          | some nb => [native_sol_holding nb]
          | none => []
        native ++ non_mutable_assets.map asset_to_holding

/-! ## `SolWalletAgent.analyze_holders`

The holder list produced by `_get_holders` and the per-wallet Helius
responses are inputs: `holders` is the already-ranked top-N list, and
`fetch : String → FetchOutcome` is the upstream oracle consulted by each
concurrent `get_wallet_assets` task.  `asyncio.gather` stores every result
in the slot of its issuing task regardless of completion order; this is
embedded by `runSchedule`, which writes slot `i` when task `i` completes,
following an arbitrary completion order. -/

structure HolderRecord where
  address : String
  amount : ℚ
  percentage : String
deriving DecidableEq

/-- One element appended to `token_map[token_address]["holders"]`. -/
structure HolderContribution where
  address : String
  total_price : ℚ
  percentage : String
  gmgn_link_owner_address : String
deriving DecidableEq

/-- One `token_map` value (insertion-ordered association list entry).
`gmgn_referral_link` is absent until the final annotation loop writes it;
the empty string stands for the absent key. -/
structure TokenAggregate where
  token_address : String
  token_img : String
  symbol : String
  price_per_token : ℚ
  total_holding_value : ℚ
  holders : List HolderContribution
  gmgn_referral_link : String
deriving DecidableEq

def mk_contribution (holder : HolderRecord) (token : AssetHolding) : HolderContribution :=
  { address := holder.address
    total_price := token.total_price
    percentage := holder.percentage
    gmgn_link_owner_address := "https://gmgn.ai/sol/address/" ++ holder.address }

/-- The fresh entry inserted when `token_address not in token_map`. -/
def new_aggregate (token : AssetHolding) : TokenAggregate :=
  { token_address := token.token_address
    token_img := token.token_img
    symbol := token.symbol
    price_per_token := token.price_per_token
    total_holding_value := 0
    holders := []
    gmgn_referral_link := "" }

/-- The two unconditional statements of the inner loop body:
`total_holding_value += token["total_price"]` and
`holders.append({...})`. -/
def add_contribution (holder : HolderRecord) (token : AssetHolding)
    (e : TokenAggregate) : TokenAggregate :=
  { e with
    total_holding_value := e.total_holding_value + token.total_price
    holders := e.holders ++ [mk_contribution holder token] }

/-- One iteration of the inner `for token in assets` loop over the
insertion-ordered `token_map`. -/
def mergeAsset (m : List TokenAggregate) (holder : HolderRecord)
    (token : AssetHolding) : List TokenAggregate :=
  if m.any (fun e => decide (e.token_address = token.token_address)) then
    m.map (fun e =>
      if e.token_address = token.token_address then add_contribution holder token e else e)
  else
    m ++ [add_contribution holder token (new_aggregate token)]

/-- The `for holder, assets in zip(top_holders, assets_results)` loop.
The guard `assets is None or isinstance(assets, dict) and "error" in assets`
is vacuous in this typed embedding (`get_wallet_assets` always returns a
list), so each pair is merged unconditionally. -/
def build_token_map (pairs : List (HolderRecord × List AssetHolding)) :
    List TokenAggregate :=
  pairs.foldl (fun m p => p.2.foldl (fun m t => mergeAsset m p.1 t) m) []

/-- Comparator of `sorted(token_map.values(), key=lambda x: x["total_holding_value"], reverse=True)`. -/
def aggregate_le (a b : TokenAggregate) : Bool :=
  decide (b.total_holding_value ≤ a.total_holding_value)

/-- Comparator of `sorted(token["holders"], key=lambda x: x["total_price"], reverse=True)`. -/
def contribution_le (a b : HolderContribution) : Bool :=
  decide (b.total_price ≤ a.total_price)

/-- The ranking tail of `analyze_holders`: sort aggregates descending by
`total_holding_value`, keep the top 5, then inside each kept aggregate sort
holders descending by `total_price`, keep the top 5, and attach the static
referral link. -/
def rankAggregates (token_map : List TokenAggregate) : List TokenAggregate :=
  let sorted_tokens := (sortByRel aggregate_le token_map).take 5
  sorted_tokens.map (fun t =>
    { t with
      holders := (sortByRel contribution_le t.holders).take 5
      gmgn_referral_link := "https://gmgn.ai/?ref=WtaAO4Jn&chain=sol" })

/-- `asyncio.gather` result assembly: each task writes its own slot when it
completes; `order` is the completion order (indices out of range write
nothing, duplicates rewrite the same deterministic value). -/
def runSchedule (n : Nat) (compute : Nat → List AssetHolding)
    (order : List Nat) : List (List AssetHolding) :=
  order.foldl (fun acc i => acc.set i (compute i)) (List.replicate n [])

/-- `SolWalletAgent.analyze_holders`, parametrized by the completion order of
the concurrent per-holder fetches. -/
def analyze_holders_sched (holders : List HolderRecord)
    (fetch : String → FetchOutcome) (order : List Nat) : List TokenAggregate :=
  if holders.isEmpty then []
  else
    let top_holders := holders.filter (fun h => decide (h.address ≠ raydium_address))
    let assets_results := runSchedule top_holders.length
      (fun i =>
        match top_holders[i]? with
        | some h => get_wallet_assets (fetch h.address)
        | none => []) order
    rankAggregates (build_token_map (top_holders.zip assets_results))

/-- `SolWalletAgent.analyze_holders` with the canonical completion order. -/
def analyze_holders (holders : List HolderRecord)
    (fetch : String → FetchOutcome) : List TokenAggregate :=
  analyze_holders_sched holders fetch
    (List.range (holders.filter (fun h => decide (h.address ≠ raydium_address))).length)

/-! ## Determinism of the gather step -/

theorem foldl_set_getElem (compute : Nat → List AssetHolding) (order : List Nat) :
    ∀ (acc : List (List AssetHolding)) (j : Nat),
      (order.foldl (fun acc i => acc.set i (compute i)) acc)[j]? =
        if j ∈ order ∧ j < acc.length then some (compute j) else acc[j]? := by
  induction order with
  | nil => intro acc j; simp
  | cons i rest ih =>
    intro acc j
    have hlen : (acc.set i (compute i)).length = acc.length := List.length_set acc i (compute i)
    simp only [List.foldl_cons]
    rw [ih (acc.set i (compute i)) j, hlen]
    by_cases hrest : j ∈ rest ∧ j < acc.length
    · simp [hrest, List.mem_cons.mpr (Or.inr hrest.1), hrest.2]
    · simp only [hrest, if_false]
      by_cases hji : j = i
      · subst hji
        by_cases hjl : j < acc.length
        · rw [List.getElem?_set_self hjl]
          simp [hjl, List.mem_cons]
        · rw [List.getElem?_eq_none (le_of_not_lt (by rw [hlen] at *; exact hjl)),
            List.getElem?_eq_none (le_of_not_lt hjl)]
          simp [hjl]
      · rw [List.getElem?_set_ne (fun h => hji h.symm)]
        have : (j ∈ i :: rest ∧ j < acc.length) ↔ (j ∈ rest ∧ j < acc.length) := by
          constructor
          · rintro ⟨hm, hl⟩
            rcases List.mem_cons.mp hm with rfl | hm
            · exact absurd rfl hji
            · exact ⟨hm, hl⟩
          · rintro ⟨hm, hl⟩
            exact ⟨List.mem_cons.mpr (Or.inr hm), hl⟩
        rw [if_congr this rfl rfl]
        simp [hrest]

/-- Any completion order that covers every task index assembles the same
result list as the canonical in-order schedule. -/
theorem runSchedule_covers (n : Nat) (compute : Nat → List AssetHolding)
    (order : List Nat) (h : ∀ i, i < n → i ∈ order) :
    runSchedule n compute order = (List.range n).map compute := by
  apply List.ext_getElem?
  intro j
  unfold runSchedule
  rw [foldl_set_getElem, List.length_replicate]
  by_cases hj : j < n
  · rw [if_pos ⟨h j hj, hj⟩, List.getElem?_map, List.getElem?_range hj]
    rfl
  · rw [if_neg (fun hc => hj hc.2),
      List.getElem?_eq_none (by simpa using le_of_not_lt hj),
      List.getElem?_eq_none (by simpa using le_of_not_lt hj)]

theorem map_range_getElem (l : List HolderRecord)
    (g : HolderRecord → List AssetHolding) :
    (List.range l.length).map
        (fun i => match l[i]? with | some h => g h | none => []) = l.map g := by
  apply List.ext_getElem?
  intro j
  rw [List.getElem?_map, List.getElem?_map]
  by_cases hj : j < l.length
  · rw [List.getElem?_range hj, List.getElem?_eq_getElem hj]
    simp [List.getElem?_eq_getElem hj]
  · rw [List.getElem?_eq_none (by simpa using le_of_not_lt hj),
      List.getElem?_eq_none (le_of_not_lt hj)]
    rfl

/-- `analyze_holders` expressed without the scheduling machinery. -/
theorem analyze_holders_canonical (holders : List HolderRecord)
    (fetch : String → FetchOutcome) :
    analyze_holders holders fetch =
      if holders.isEmpty then []
      else
        rankAggregates (build_token_map
          ((holders.filter (fun h => decide (h.address ≠ raydium_address))).zip
            ((holders.filter (fun h => decide (h.address ≠ raydium_address))).map
              (fun h => get_wallet_assets (fetch h.address))))) := by
  unfold analyze_holders analyze_holders_sched
  by_cases hemp : holders.isEmpty
  · simp [hemp]
  · simp only [hemp, if_false]
    rw [runSchedule_covers _ _ _ (fun i hi => List.mem_range.mpr hi), map_range_getElem]

/-! ## `fetch_and_organize_dex_trade_data` and `get_token_trading_info`

The raw buckets are the `DEXTradeByTokens` rows already parsed from JSON.
Price fields (`open`, `max`, `min`, `close`) are embedded as rationals: a
null price would raise a `TypeError` later inside the summary arithmetic of
`get_token_trading_info` and fall into its broad `except`, which is outside
the claims settled here.  The untrusted `volume` string keeps its
try-`float`-except-ValueError fallback: a string that `float()` rejects is
carried through unchanged. -/

/-- The raw `volume` value: either a string `float()` parses to `value`, or
a string `float()` rejects with `ValueError`. -/
inductive UpstreamVolume where
  | numeric (value : ℚ)
  | malformed (raw : String)
deriving DecidableEq

/-- The organized `volume` value after the try/except parse. -/
inductive VolumeVal where
  | num (value : ℚ)
  | str (raw : String)
deriving DecidableEq

structure RawTradeBucket where
  block_time : String
  open_ : ℚ
  max_ : ℚ
  min_ : ℚ
  close_ : ℚ
  volume : Option UpstreamVolume
deriving DecidableEq

structure OrganizedBucket where
  time : String
  open_ : ℚ
  high_ : ℚ
  low_ : ℚ
  close_ : ℚ
  volume : VolumeVal
deriving DecidableEq

/-- `try: volume = float(volume_str) except ValueError: volume = volume_str`. -/
def parseVolume : UpstreamVolume → VolumeVal
  | .numeric q => .num q
  | .malformed s => .str s

/-- The dict appended to `organized_data` for one bucket (`high` is the raw
`max` quantile, `low` the raw `min` quantile, missing `volume` defaults to
the string `"0"`). -/
def organizeBucket (b : RawTradeBucket) : OrganizedBucket :=
  { time := b.block_time
    open_ := b.open_
    high_ := b.max_
    low_ := b.min_
    close_ := b.close_
    volume := parseVolume (b.volume.getD (.numeric 0)) }

/-- Comparator of `organized_data.sort(key=lambda x: x["time"])`. -/
def bucket_time_le (a b : OrganizedBucket) : Bool :=
  decide (a.time ≤ b.time)

/-- `fetch_and_organize_dex_trade_data`, starting from the parsed
`DEXTradeByTokens` rows. -/
def fetch_and_organize_dex_trade_data (buckets : List RawTradeBucket) :
    List OrganizedBucket :=
  sortByRel bucket_time_le (buckets.map organizeBucket)

structure TradeSummary where
  current_price : ℚ
  price_change_1h : ℚ
  price_change_percentage_1h : ℚ
  highest_price_1h : ℚ
  lowest_price_1h : ℚ
  total_volume_1h : ℚ
deriving DecidableEq

/-- Result of `get_token_trading_info`: either the summary-plus-detail dict
or an `error` dict.  The wall-clock `last_updated` field is omitted. -/
inductive TradingResult where
  | info (summary : TradeSummary) (detailed_data : List OrganizedBucket)
  | error (msg : String)
deriving DecidableEq

/-- Python `sum(bucket["volume"] for bucket in trading_data)`: the running
total starts at `0`; the first non-numeric volume raises a `TypeError`,
modelled as `none`. -/
def sumVolumes (td : List OrganizedBucket) : Option ℚ :=
  td.foldl
    (fun acc b =>
      match acc, b.volume with
      | some a, .num q => some (a + q)
      | _, _ => none)
    (some 0)

/-- `BitquerySolanaTokenInfoAgent.get_token_trading_info`, starting from the
organized bucket list returned by `fetch_and_organize_dex_trade_data`.  An
empty list is the distinguished no-data error; a non-numeric volume raises
inside the `try` and is caught by the broad `except`. -/
def get_token_trading_info (trading_data : List OrganizedBucket) : TradingResult :=
  match trading_data with
  | [] => .error "No trading data available"
  | first :: rest =>
    match sumVolumes (first :: rest) with
    | none => .error "Failed to fetch token trading info: TypeError"
    | some total_volume =>
      let latest := (first :: rest).getLast (List.cons_ne_nil first rest)
      let price_change := latest.close_ - first.open_
      let price_change_percent :=
        if first.open_ ≠ 0 then price_change / first.open_ * 100 else 0
      .info
        { current_price := latest.close_
          price_change_1h := price_change
          price_change_percentage_1h := price_change_percent
          highest_price_1h := (rest.map (fun b => b.high_)).foldl max first.high_
          lowest_price_1h := (rest.map (fun b => b.low_)).foldl min first.low_
          total_volume_1h := total_volume }
        (first :: rest)

/-- The `summary` field of a non-error `get_token_trading_info` result. -/
def summaryOf : TradingResult → Option TradeSummary
  | .info s _ => some s
  | .error _ => none

/-- Numeric value of an organized volume (`0` for the malformed-string
fallback, which never reaches a summary). -/
def volumeValue : VolumeVal → ℚ
  | .num q => q
  | .str _ => 0

/-! ## The request dispatchers (`handle_message`)

The LLM endpoints and the tool method bodies are oracles.  Tool results are
abstracted to the one distinction the dispatcher inspects: whether the
returned data object carries an `error` key.  Exceptions are explicit: the
LLM tool-selection call may raise; the selected tool call carries the
outcome of `json.loads` on its `arguments` string; and `_handle_tool_logic`
reads each required argument with `function_args[key]`, which raises
`KeyError` when the key is absent.  `SolWalletAgent.handle_message` wraps
its whole body in a broad `try`/`except` that turns any such exception into
a bare `{error}` object, while `BitquerySolanaTokenInfoAgent.handle_message`
has no `try`/`except`, so there the exception escapes the function
(`DispatchOutcome.raised`).  The narration call is modelled as total; a
raising narration call would follow the same two routes.  The event trace
records, in order, every LLM call and every operation invocation. -/

/-- A data object handed back by a tool: either a dict carrying key `error`,
an ordinary payload (abstracted to a tag), or the literal `{}`. -/
inductive ToolData where
  | withError (msg : String)
  | payload (value : String)
  | emptyObj
deriving DecidableEq

/-- `_handle_error`: return the value under `error` when the key is present. -/
def handle_error : ToolData → Option String
  | .withError e => some e
  | _ => none

/-- One tool call selected by the LLM: call id, function name, and the
outcome of `json.loads(tool_call.function.arguments)` — `none` stands for an
arguments string `json.loads` rejects (it raises), `some` for the parsed
key-value map. -/
structure SelectedCall where
  id : String
  name : String
  arguments : Option (List (String × String))
deriving DecidableEq

/-- Outcome of one external LLM tool-selection call: the call may raise, or
return a value (which the dispatcher then tests for truthiness). -/
inductive CallOutcome (τ : Type) where
  | raises (e : String)
  | returns (val : τ)
deriving DecidableEq

inductive Event where
  | llmToolSelect
  | opInvoke (name : String)
  | llmNarrate
deriving DecidableEq

/-- The `params` dict of `handle_message`; `none` models an absent (or
falsy) key, matching the truthiness tests `if tool_name:` / `if query:`. -/
structure Params where
  query : Option String
  tool : Option String
  tool_arguments : List (String × String)
  raw_data_only : Bool

/-- A dict returned by `handle_message`: a `{response, data}` envelope or a
bare `{error}` object. -/
inductive MsgResult where
  | envelope (response : String) (data : ToolData)
  | errorObj (msg : String)
deriving DecidableEq

def isEnvelope : MsgResult → Bool
  | .envelope _ _ => true
  | .errorObj _ => false

/-- How one `handle_message` call ends: it returns a dict, or an exception
escapes it.  Both carry the event trace accumulated up to that point. -/
inductive DispatchOutcome where
  | returns (result : MsgResult) (events : List Event)
  | raised (e : String) (events : List Event)
deriving DecidableEq

def outcomeEnvelope : DispatchOutcome → Bool
  | .returns r _ => isEnvelope r
  | .raised _ _ => false

/-- Result of one `_handle_tool_logic` call: a data object, or an exception
(the `KeyError` from a missing required argument) propagating out of it. -/
inductive ToolLogicOutcome where
  | val (d : ToolData)
  | raised (e : String)
deriving DecidableEq

/-- Does the argument map hold the required key (when there is one)?  This
is exactly the condition under which the `function_args[key]` reads in
`_handle_tool_logic` do not raise `KeyError`. -/
def args_ok (required : Option String) (args : List (String × String)) : Bool :=
  match required with
  | some key => (args.lookup key).isSome
  | none => true

namespace SolWalletAgent

/-- External collaborators of `SolWalletAgent.handle_message`: `llmSelect`
is the `call_llm_with_tools_async` call (it may raise; a returned `none` is
a falsy response), `narrate` is `_respond_with_llm`, and `toolResult` gives
the data object produced by the invoked tool method on the given arguments. -/
structure Oracle where
  llmSelect : CallOutcome (Option (String × Option SelectedCall))
  narrate : String → ToolData → String
  toolResult : String → List (String × String) → ToolData

def knownTool (name : String) : Bool :=
  name = "get_sol_wallet_assets" || name = "analyze_sol_token_holders" ||
    name = "get_sol_tx_history"

/-- The argument each branch of `_handle_tool_logic` reads with a raising
`function_args[key]` lookup (`top_n` is read with `.get` and cannot raise). -/
def required_arg (tool_name : String) : Option String :=
  if tool_name = "get_sol_wallet_assets" then some "owner_address"
  else if tool_name = "analyze_sol_token_holders" then some "token_address"
  else if tool_name = "get_sol_tx_history" then some "owner_address"
  else none

/-- `SolWalletAgent._handle_tool_logic` plus its event trace: an unknown
tool yields an `{error}` dict; a known tool whose required argument is
missing raises `KeyError` before any method runs; otherwise the tool method
runs and an `error` key in its result is extracted by `_handle_error`. -/
def handle_tool_logic (o : Oracle) (tool_name : String)
    (function_args : List (String × String)) : ToolLogicOutcome × List Event :=
  if knownTool tool_name then
    match required_arg tool_name with
    | some key =>
      match function_args.lookup key with
      | none => (.raised ("KeyError: " ++ key), [])
      | some _ =>
        let result := o.toolResult tool_name function_args
        (.val (match handle_error result with
               | some e => ToolData.withError e
               | none => result),
         [.opInvoke tool_name])
    | none =>
      let result := o.toolResult tool_name function_args
      (.val (match handle_error result with
             | some e => ToolData.withError e
             | none => result),
       [.opInvoke tool_name])
  else
    (.val (.withError ("Unsupported tool: " ++ tool_name)), [])

/-- The body of `SolWalletAgent.handle_message` (the code inside its `try`).
The session bookkeeping is untranslated state-free plumbing. -/
def handle_message_body (o : Oracle) (p : Params) : DispatchOutcome :=
  match p.tool with
  | some tool_name =>
    match handle_tool_logic o tool_name p.tool_arguments with
    | (.val d, evs) => .returns (.envelope "" d) evs
    | (.raised e, evs) => .raised e evs
  | none =>
    match p.query with
    | some query =>
      match o.llmSelect with
      | .raises e => .raised e [.llmToolSelect]
      | .returns none =>
        .returns (.errorObj "Failed to process query") [.llmToolSelect]
      | .returns (some response) =>
        match response.2 with
        | none => .returns (.envelope response.1 .emptyObj) [.llmToolSelect]
        | some tool_call =>
          match tool_call.arguments with
          | none => .raised "json.loads: malformed tool arguments" [.llmToolSelect]
          | some args =>
            match handle_tool_logic o tool_call.name args with
            | (.raised e, evs) => .raised e (.llmToolSelect :: evs)
            | (.val d, evs) =>
              if p.raw_data_only then
                .returns (.envelope "" d) (.llmToolSelect :: evs)
              else
                .returns (.envelope (o.narrate query d) d)
                  ((.llmToolSelect :: evs) ++ [.llmNarrate])
    | none =>
      .returns
        (.errorObj "Either 'query' or 'tool' must be provided in the parameters.") []

/-- `SolWalletAgent.handle_message`: the broad `except Exception` around the
body turns any in-dispatch exception into a bare `{error}` object built from
the exception text. -/
def handle_message (o : Oracle) (p : Params) : DispatchOutcome :=
  match handle_message_body o p with
  | .raised e evs => .returns (.errorObj ("Error handling message: " ++ e)) evs
  | r => r

end SolWalletAgent

namespace BitqueryAgent

/-- External collaborators of `BitquerySolanaTokenInfoAgent.handle_message`.
The LLM response carries an optional `content` (read with a default) and a
`tool_calls` list (an empty list is the falsy no-tool-call case; only the
first element is used). -/
structure Oracle where
  llmSelect : CallOutcome (Option (Option String × List SelectedCall))
  narrate : String → ToolData → String
  toolResult : String → List (String × String) → ToolData

def knownTool (name : String) : Bool :=
  name = "get_token_trading_info" || name = "get_top_trending_tokens"

/-- The argument each branch of `_handle_tool_logic` reads with a raising
`function_args[key]` lookup; `get_top_trending_tokens` takes no arguments. -/
def required_arg (tool_name : String) : Option String :=
  if tool_name = "get_token_trading_info" then some "token_address"
  else none

/-- `BitquerySolanaTokenInfoAgent._handle_tool_logic` plus its event trace. -/
def handle_tool_logic (o : Oracle) (tool_name : String)
    (function_args : List (String × String)) : ToolLogicOutcome × List Event :=
  if knownTool tool_name then
    match required_arg tool_name with
    | some key =>
      match function_args.lookup key with
      | none => (.raised ("KeyError: " ++ key), [])
      | some _ =>
        let result := o.toolResult tool_name function_args
        (.val (match handle_error result with
               | some e => ToolData.withError e
               | none => result),
         [.opInvoke tool_name])
    | none =>
      let result := o.toolResult tool_name function_args
      (.val (match handle_error result with
             | some e => ToolData.withError e
             | none => result),
       [.opInvoke tool_name])
  else
    (.val (.withError ("Unsupported tool: " ++ tool_name)), [])

/-- `BitquerySolanaTokenInfoAgent.handle_message`.  This function has no
`try`/`except`: an in-dispatch exception escapes it instead of being turned
into a return value. -/
def handle_message (o : Oracle) (p : Params) : DispatchOutcome :=
  match p.tool with
  | some tool_name =>
    match handle_tool_logic o tool_name p.tool_arguments with
    | (.val d, evs) => .returns (.envelope "" d) evs
    | (.raised e, evs) => .raised e evs
  | none =>
    match p.query with
    | some query =>
      match o.llmSelect with
      | .raises e => .raised e [.llmToolSelect]
      | .returns none =>
        .returns (.errorObj "Failed to process query") [.llmToolSelect]
      | .returns (some response) =>
        match response.2 with
        | [] =>
          .returns (.envelope (response.1.getD "No response content") .emptyObj)
            [.llmToolSelect]
        | tool_call :: _ =>
          match tool_call.arguments with
          | none => .raised "json.loads: malformed tool arguments" [.llmToolSelect]
          | some args =>
            match handle_tool_logic o tool_call.name args with
            | (.raised e, evs) => .raised e (.llmToolSelect :: evs)
            | (.val d, evs) =>
              if p.raw_data_only then
                .returns (.envelope "" d) (.llmToolSelect :: evs)
              else
                .returns (.envelope (o.narrate query d) d)
                  ((.llmToolSelect :: evs) ++ [.llmNarrate])
    | none =>
      .returns
        (.errorObj "Either 'query' or 'tool' must be provided in the parameters.") []

end BitqueryAgent


/-! ## Claims about the dispatchers -/

/-- Claim C8: with neither a direct tool name nor a natural-language query in
the params, both dispatchers return the missing-input error object, invoke no
operation, and make no LLM call (the event trace is empty). -/
theorem claim_C8 (so : SolWalletAgent.Oracle) (bo : BitqueryAgent.Oracle)
    (p : Params) (hTool : p.tool = none) (hQuery : p.query = none) :
    SolWalletAgent.handle_message so p =
      .returns
        (.errorObj "Either 'query' or 'tool' must be provided in the parameters.")
        [] ∧
    BitqueryAgent.handle_message bo p =
      .returns
        (.errorObj "Either 'query' or 'tool' must be provided in the parameters.")
        [] := by
  unfold SolWalletAgent.handle_message SolWalletAgent.handle_message_body
    BitqueryAgent.handle_message
  rw [hTool, hQuery]
  exact ⟨rfl, rfl⟩

/-- Claim C8, witnessed at a concrete empty request. -/
theorem claim_C8_witness :
    SolWalletAgent.handle_message
        ⟨.returns none, fun _ _ => "", fun _ _ => .emptyObj⟩
        ⟨none, none, [], false⟩ =
      .returns
        (.errorObj "Either 'query' or 'tool' must be provided in the parameters.")
        [] ∧
    BitqueryAgent.handle_message
        ⟨.returns none, fun _ _ => "", fun _ _ => .emptyObj⟩
        ⟨none, none, [], false⟩ =
      .returns
        (.errorObj "Either 'query' or 'tool' must be provided in the parameters.")
        [] :=
  claim_C8 _ _ _ rfl rfl

/-- Claim C1 is false on the code: on the LLM path with `raw_data_only` false
and a tool result carrying an `error` key, `handle_message` does invoke the
LLM narration step on the error payload (the trace ends with `llmNarrate`
and the response is the narration of the error object). -/
theorem claim_C1_counterexample :
    (SolWalletAgent.handle_message
        ⟨.returns (some ("", some ⟨"id1", "get_sol_wallet_assets",
            some [("owner_address", "X")]⟩)),
         fun _ _ => "narrated error",
         fun _ _ => .withError "boom"⟩
        ⟨some "who holds X", none, [], false⟩) =
      .returns (.envelope "narrated error" (.withError "boom"))
        [.llmToolSelect, .opInvoke "get_sol_wallet_assets", .llmNarrate] := by
  decide

/-- Claim C1, amended: on the LLM path with `raw_data_only` false, when the
selected operation is actually invoked (its arguments parsed and its required
argument present) and returns a data object carrying an `error` key, each
dispatcher propagates that error object unchanged as the `data` field of the
envelope, but it does not terminate before narration: it invokes the LLM
narration step on the error payload and returns its prose as `response`. -/
theorem claim_C1_amended (o : SolWalletAgent.Oracle) (bo : BitqueryAgent.Oracle)
    (p : Params) (query content e eb : String) (bcontent : Option String)
    (tc btc : SelectedCall) (brest : List SelectedCall)
    (args bargs : List (String × String))
    (hTool : p.tool = none) (hQuery : p.query = some query)
    (hRaw : p.raw_data_only = false)
    (hSel : o.llmSelect = .returns (some (content, some tc)))
    (hArgs : tc.arguments = some args)
    (hKnown : SolWalletAgent.knownTool tc.name = true)
    (hOk : args_ok (SolWalletAgent.required_arg tc.name) args = true)
    (hRes : o.toolResult tc.name args = .withError e)
    (hbSel : bo.llmSelect = .returns (some (bcontent, btc :: brest)))
    (hbArgs : btc.arguments = some bargs)
    (hbKnown : BitqueryAgent.knownTool btc.name = true)
    (hbOk : args_ok (BitqueryAgent.required_arg btc.name) bargs = true)
    (hbRes : bo.toolResult btc.name bargs = .withError eb) :
    SolWalletAgent.handle_message o p =
      .returns (.envelope (o.narrate query (.withError e)) (.withError e))
        [.llmToolSelect, .opInvoke tc.name, .llmNarrate] ∧
    BitqueryAgent.handle_message bo p =
      .returns (.envelope (bo.narrate query (.withError eb)) (.withError eb))
        [.llmToolSelect, .opInvoke btc.name, .llmNarrate] := by
  constructor
  · unfold SolWalletAgent.handle_message SolWalletAgent.handle_message_body
      SolWalletAgent.handle_tool_logic
    rw [hTool, hQuery, hSel]
    rcases hreq : SolWalletAgent.required_arg tc.name with _ | key
    · simp [hArgs, hKnown, hreq, hRes, hRaw, handle_error]
    · rw [hreq] at hOk
      rcases hlook : args.lookup key with _ | v
      · rw [args_ok, hlook] at hOk
        cases hOk
      · simp [hArgs, hKnown, hreq, hlook, hRes, hRaw, handle_error]
  · unfold BitqueryAgent.handle_message BitqueryAgent.handle_tool_logic
    rw [hTool, hQuery, hbSel]
    rcases hreq : BitqueryAgent.required_arg btc.name with _ | key
    · simp [hbArgs, hbKnown, hreq, hbRes, hRaw, handle_error]
    · rw [hreq] at hbOk
      rcases hlook : bargs.lookup key with _ | v
      · rw [args_ok, hlook] at hbOk
        cases hbOk
      · simp [hbArgs, hbKnown, hreq, hlook, hbRes, hRaw, handle_error]

/-- Claim C1 (amended), witnessed at concrete oracles and request. -/
theorem claim_C1_amended_witness :
    SolWalletAgent.handle_message
        ⟨.returns (some ("c", some ⟨"i1", "get_sol_tx_history",
            some [("owner_address", "w")]⟩)),
         fun _ d => match d with | .withError m => "sol saw " ++ m | _ => "",
         fun _ _ => .withError "E1"⟩
        ⟨some "q1", none, [], false⟩ =
      .returns (.envelope "sol saw E1" (.withError "E1"))
        [.llmToolSelect, .opInvoke "get_sol_tx_history", .llmNarrate] ∧
    BitqueryAgent.handle_message
        ⟨.returns (some (some "c", [⟨"i2", "get_token_trading_info",
            some [("token_address", "t")]⟩])),
         fun _ d => match d with | .withError m => "bq saw " ++ m | _ => "",
         fun _ _ => .withError "E2"⟩
        ⟨some "q1", none, [], false⟩ =
      .returns (.envelope "bq saw E2" (.withError "E2"))
        [.llmToolSelect, .opInvoke "get_token_trading_info", .llmNarrate] :=
  claim_C1_amended _ _ _ "q1" "c" "E1" "E2" (some "c")
    ⟨"i1", "get_sol_tx_history", some [("owner_address", "w")]⟩
    ⟨"i2", "get_token_trading_info", some [("token_address", "t")]⟩ []
    [("owner_address", "w")] [("token_address", "t")]
    rfl rfl rfl rfl rfl (by decide) (by decide) rfl rfl rfl (by decide)
    (by decide) rfl

/-- Claim C2 is false on the code: on the missing-input path,
`handle_message` returns a bare `{error}` object, not a `{response, data}`
envelope. -/
theorem claim_C2_counterexample :
    outcomeEnvelope (SolWalletAgent.handle_message
        ⟨.returns none, fun _ _ => "", fun _ _ => .emptyObj⟩
        ⟨none, none, [], false⟩) = false := by
  decide

/-- Claim C2, amended: `handle_message` does not always produce a
`ResponseEnvelope`.  Every value it returns is either a `{response, data}`
envelope or a bare `{error: string}` object: the missing-input path returns
the bare object; the Sol agent wraps its body in a broad `except` that turns
every in-dispatch exception — such as the `KeyError` raised when a direct
tool call misses its required argument — into the bare object, so that agent
always returns one of the two shapes; the Bitquery agent has no `except`, so
the same exception escapes `handle_message` and no value is returned at all.
A direct call to a known tool whose required argument is present does return
an envelope. -/
theorem claim_C2_amended (so : SolWalletAgent.Oracle) (bo : BitqueryAgent.Oracle)
    (p : Params) :
    (∃ r evs, SolWalletAgent.handle_message so p = .returns r evs) ∧
    (p.tool = none → p.query = none →
      outcomeEnvelope (SolWalletAgent.handle_message so p) = false ∧
      outcomeEnvelope (BitqueryAgent.handle_message bo p) = false) ∧
    (∀ tool_name, p.tool = some tool_name →
      SolWalletAgent.knownTool tool_name = true →
      args_ok (SolWalletAgent.required_arg tool_name) p.tool_arguments = true →
      ∃ d, SolWalletAgent.handle_message so p =
        .returns (.envelope "" d) [.opInvoke tool_name]) ∧
    (∀ tool_name, p.tool = some tool_name →
      BitqueryAgent.knownTool tool_name = true →
      args_ok (BitqueryAgent.required_arg tool_name) p.tool_arguments = true →
      ∃ d, BitqueryAgent.handle_message bo p =
        .returns (.envelope "" d) [.opInvoke tool_name]) ∧
    (∀ tool_name key, p.tool = some tool_name →
      SolWalletAgent.knownTool tool_name = true →
      SolWalletAgent.required_arg tool_name = some key →
      p.tool_arguments.lookup key = none →
      SolWalletAgent.handle_message so p =
        .returns (.errorObj ("Error handling message: " ++ ("KeyError: " ++ key)))
          []) ∧
    (∀ tool_name key, p.tool = some tool_name →
      BitqueryAgent.knownTool tool_name = true →
      BitqueryAgent.required_arg tool_name = some key →
      p.tool_arguments.lookup key = none →
      BitqueryAgent.handle_message bo p = .raised ("KeyError: " ++ key) []) := by
  refine ⟨?_, ?_, ?_, ?_, ?_, ?_⟩
  · unfold SolWalletAgent.handle_message
    rcases h : SolWalletAgent.handle_message_body so p with ⟨r, evs⟩ | ⟨e, evs⟩
    · exact ⟨r, evs, rfl⟩
    · exact ⟨.errorObj ("Error handling message: " ++ e), evs, rfl⟩
  · intro hTool hQuery
    unfold SolWalletAgent.handle_message SolWalletAgent.handle_message_body
      BitqueryAgent.handle_message
    rw [hTool, hQuery]
    exact ⟨rfl, rfl⟩
  · intro tool_name hTool hKnown hOk
    unfold SolWalletAgent.handle_message SolWalletAgent.handle_message_body
      SolWalletAgent.handle_tool_logic
    rw [hTool]
    refine ⟨(match handle_error (so.toolResult tool_name p.tool_arguments) with
             | some e => ToolData.withError e
             | none => so.toolResult tool_name p.tool_arguments), ?_⟩
    rcases hreq : SolWalletAgent.required_arg tool_name with _ | key
    · simp [hKnown, hreq]
    · rw [hreq] at hOk
      rcases hlook : p.tool_arguments.lookup key with _ | v
      · rw [args_ok, hlook] at hOk
        cases hOk
      · simp [hKnown, hreq, hlook]
  · intro tool_name hTool hKnown hOk
    unfold BitqueryAgent.handle_message BitqueryAgent.handle_tool_logic
    rw [hTool]
    refine ⟨(match handle_error (bo.toolResult tool_name p.tool_arguments) with
             | some e => ToolData.withError e
             | none => bo.toolResult tool_name p.tool_arguments), ?_⟩
    rcases hreq : BitqueryAgent.required_arg tool_name with _ | key
    · simp [hKnown, hreq]
    · rw [hreq] at hOk
      rcases hlook : p.tool_arguments.lookup key with _ | v
      · rw [args_ok, hlook] at hOk
        cases hOk
      · simp [hKnown, hreq, hlook]
  · intro tool_name key hTool hKnown hReq hLook
    unfold SolWalletAgent.handle_message SolWalletAgent.handle_message_body
      SolWalletAgent.handle_tool_logic
    rw [hTool]
    simp [hKnown, hReq, hLook]
  · intro tool_name key hTool hKnown hReq hLook
    unfold BitqueryAgent.handle_message BitqueryAgent.handle_tool_logic
    rw [hTool]
    simp [hKnown, hReq, hLook]

/-! ## Claims C3 and C4: the aggregator -/

theorem aggregate_le_total (a b : TokenAggregate) :
    aggregate_le a b = true ∨ aggregate_le b a = true := by
  unfold aggregate_le
  rcases le_total b.total_holding_value a.total_holding_value with h | h
  · exact Or.inl (decide_eq_true h)
  · exact Or.inr (decide_eq_true h)

theorem aggregate_le_trans (a b c : TokenAggregate)
    (hab : aggregate_le a b = true) (hbc : aggregate_le b c = true) :
    aggregate_le a c = true := by
  unfold aggregate_le at *
  exact decide_eq_true (le_trans (of_decide_eq_true hbc) (of_decide_eq_true hab))

theorem contribution_le_total (a b : HolderContribution) :
    contribution_le a b = true ∨ contribution_le b a = true := by
  unfold contribution_le
  rcases le_total b.total_price a.total_price with h | h
  · exact Or.inl (decide_eq_true h)
  · exact Or.inr (decide_eq_true h)

theorem contribution_le_trans (a b c : HolderContribution)
    (hab : contribution_le a b = true) (hbc : contribution_le b c = true) :
    contribution_le a c = true := by
  unfold contribution_le at *
  exact decide_eq_true (le_trans (of_decide_eq_true hbc) (of_decide_eq_true hab))

theorem rankAggregates_bounds (m : List TokenAggregate) :
    (rankAggregates m).length ≤ 5 ∧
    (rankAggregates m).Pairwise
      (fun a b => b.total_holding_value ≤ a.total_holding_value) ∧
    ∀ t ∈ rankAggregates m,
      t.holders.length ≤ 5 ∧
      t.holders.Pairwise (fun a b => b.total_price ≤ a.total_price) := by
  refine ⟨?_, ?_, ?_⟩
  · rw [rankAggregates, List.length_map]
    exact List.length_take_le 5 _
  · have hs : ((sortByRel aggregate_le m).take 5).Pairwise
        (fun a b => aggregate_le a b = true) :=
      (pairwise_sortByRel aggregate_le aggregate_le_total aggregate_le_trans m).sublist
        (List.take_sublist 5 _)
    unfold rankAggregates
    refine (hs.map _ ?_)
    intro a b hab
    exact of_decide_eq_true hab
  · intro t ht
    rw [rankAggregates] at ht
    rcases List.mem_map.mp ht with ⟨t0, _, rfl⟩
    refine ⟨?_, ?_⟩
    · exact List.length_take_le 5 _
    · have hs : ((sortByRel contribution_le t0.holders).take 5).Pairwise
          (fun a b => contribution_le a b = true) :=
        (pairwise_sortByRel contribution_le contribution_le_total
          contribution_le_trans t0.holders).sublist (List.take_sublist 5 _)
      exact hs.imp (fun h => of_decide_eq_true h)

/-- Claim C4: whatever the upstream holder list, per-wallet responses, and
fetch completion order, `analyze_holders` returns at most 5 aggregates,
ordered non-increasing by `total_holding_value`, and every aggregate lists
at most 5 holder contributions ordered non-increasing by `total_price`. -/
theorem claim_C4 (holders : List HolderRecord) (fetch : String → FetchOutcome)
    (order : List Nat) :
    (analyze_holders_sched holders fetch order).length ≤ 5 ∧
    (analyze_holders_sched holders fetch order).Pairwise
      (fun a b => b.total_holding_value ≤ a.total_holding_value) ∧
    ∀ t ∈ analyze_holders_sched holders fetch order,
      t.holders.length ≤ 5 ∧
      t.holders.Pairwise (fun a b => b.total_price ≤ a.total_price) := by
  unfold analyze_holders_sched
  by_cases hemp : holders.isEmpty
  · simp [hemp]
  · simp only [hemp, if_false]
    exact rankAggregates_bounds _

/-- Claim C4, witnessed at a concrete run with six holders of one token. -/
theorem claim_C4_witness :
    (analyze_holders_sched
        [⟨"a1", 5, "10.00"⟩, ⟨"a2", 3, "6.00"⟩]
        (fun _ => .failure) [0, 1]).length ≤ 5 ∧
    (analyze_holders_sched
        [⟨"a1", 5, "10.00"⟩, ⟨"a2", 3, "6.00"⟩]
        (fun _ => .failure) [0, 1]).Pairwise
      (fun a b => b.total_holding_value ≤ a.total_holding_value) ∧
    ∀ t ∈ analyze_holders_sched
        [⟨"a1", 5, "10.00"⟩, ⟨"a2", 3, "6.00"⟩]
        (fun _ => .failure) [0, 1],
      t.holders.length ≤ 5 ∧
      t.holders.Pairwise (fun a b => b.total_price ≤ a.total_price) :=
  claim_C4 _ _ _

/-- Claim C3: with identical upstream holder lists and identical per-wallet
responses, two runs of `analyze_holders` whose concurrent fetches complete
in any two (complete) orders return identical aggregate sequences. -/
theorem claim_C3 (holders : List HolderRecord) (fetch : String → FetchOutcome)
    (o1 o2 : List Nat)
    (h1 : ∀ i, i < (holders.filter
        (fun h => decide (h.address ≠ raydium_address))).length → i ∈ o1)
    (h2 : ∀ i, i < (holders.filter
        (fun h => decide (h.address ≠ raydium_address))).length → i ∈ o2) :
    analyze_holders_sched holders fetch o1 = analyze_holders_sched holders fetch o2 := by
  unfold analyze_holders_sched
  by_cases hemp : holders.isEmpty
  · simp [hemp]
  · simp only [hemp, if_false]
    rw [runSchedule_covers _ _ _ h1, runSchedule_covers _ _ _ h2]

/-- Claim C3, witnessed at a concrete pair of permuted completion orders. -/
theorem claim_C3_witness :
    analyze_holders_sched
        [⟨"a1", 5, "10.00"⟩, ⟨"a2", 3, "6.00"⟩]
        (fun addr =>
          if addr = "a1" then
            .ok ⟨some ⟨some [], some ⟨some 1, some 2⟩⟩⟩
          else .failure)
        [1, 0] =
      analyze_holders_sched
        [⟨"a1", 5, "10.00"⟩, ⟨"a2", 3, "6.00"⟩]
        (fun addr =>
          if addr = "a1" then
            .ok ⟨some ⟨some [], some ⟨some 1, some 2⟩⟩⟩
          else .failure)
        [0, 1] :=
  claim_C3 _ _ _ _ (by decide) (by decide)

/-! ## Claim C5: the trade summary -/

theorem le_foldl_max (l : List ℚ) : ∀ a : ℚ, a ≤ l.foldl max a := by
  induction l with
  | nil => intro a; exact le_refl a
  | cons x xs ih => intro a; exact le_trans (le_max_left a x) (ih (max a x))

theorem mem_le_foldl_max (l : List ℚ) : ∀ (a x : ℚ), x ∈ l → x ≤ l.foldl max a := by
  induction l with
  | nil => intro a x hx; cases hx
  | cons y ys ih =>
    intro a x hx
    rcases List.mem_cons.mp hx with rfl | hx
    · exact le_trans (le_max_right a x) (le_foldl_max ys (max a x))
    · exact ih (max a y) x hx

theorem foldl_max_mem (l : List ℚ) : ∀ a : ℚ, l.foldl max a = a ∨ l.foldl max a ∈ l := by
  induction l with
  | nil => intro a; exact Or.inl rfl
  | cons x xs ih =>
    intro a
    rcases ih (max a x) with h | h
    · rcases max_choice a x with hm | hm
      · left; rw [List.foldl_cons, h, hm]
      · right
        rw [List.foldl_cons, h, hm]
        exact List.mem_cons_self x xs
    · right; exact List.mem_cons.mpr (Or.inr h)

theorem foldl_min_le (l : List ℚ) : ∀ a : ℚ, l.foldl min a ≤ a := by
  induction l with
  | nil => intro a; exact le_refl a
  | cons x xs ih => intro a; exact le_trans (ih (min a x)) (min_le_left a x)

theorem foldl_min_le_mem (l : List ℚ) : ∀ (a x : ℚ), x ∈ l → l.foldl min a ≤ x := by
  induction l with
  | nil => intro a x hx; cases hx
  | cons y ys ih =>
    intro a x hx
    rcases List.mem_cons.mp hx with rfl | hx
    · exact le_trans (foldl_min_le ys (min a x)) (min_le_right a x)
    · exact ih (min a y) x hx

theorem foldl_min_mem (l : List ℚ) : ∀ a : ℚ, l.foldl min a = a ∨ l.foldl min a ∈ l := by
  induction l with
  | nil => intro a; exact Or.inl rfl
  | cons x xs ih =>
    intro a
    rcases ih (min a x) with h | h
    · rcases min_choice a x with hm | hm
      · left; rw [List.foldl_cons, h, hm]
      · right
        rw [List.foldl_cons, h, hm]
        exact List.mem_cons_self x xs
    · right; exact List.mem_cons.mpr (Or.inr h)

theorem foldl_vol_none (l : List OrganizedBucket) :
    l.foldl
      (fun acc b =>
        match acc, b.volume with
        | some a, .num q => some (a + q)
        | _, _ => none)
      none = none := by
  induction l with
  | nil => rfl
  | cons b bs ih => simpa using ih

theorem sumVolumes_fold (l : List OrganizedBucket) :
    ∀ a t : ℚ,
      l.foldl
        (fun acc b =>
          match acc, b.volume with
          | some a, .num q => some (a + q)
          | _, _ => none)
        (some a) = some t →
      t = a + (l.map (fun b => volumeValue b.volume)).sum := by
  induction l with
  | nil =>
    intro a t h
    simp only [List.foldl_nil, Option.some_inj] at h
    simp [h.symm]
  | cons b bs ih =>
    intro a t h
    rcases hv : b.volume with q | s
    · rw [List.foldl_cons] at h
      simp only [hv] at h
      have := ih (a + q) t h
      rw [this]
      simp [hv, volumeValue]
      ring
    · rw [List.foldl_cons] at h
      simp only [hv] at h
      rw [foldl_vol_none] at h
      cases h

/-- Claim C5: whenever `get_token_trading_info` produces a summary from a
non-empty bucket sequence, `price_change` is the last close minus the first
open; `price_change_pct` is `price_change / first.open * 100` when the first
open is nonzero and exactly `0` when the first open is `0`; the highest and
lowest prices are the maximum of the `high` fields and the minimum of the
`low` fields; and the total volume is the sum of the volume fields. -/
theorem claim_C5 (first : OrganizedBucket) (rest : List OrganizedBucket)
    (s : TradeSummary)
    (hs : summaryOf (get_token_trading_info (first :: rest)) = some s) :
    s.price_change_1h =
      ((first :: rest).getLast (List.cons_ne_nil first rest)).close_ - first.open_ ∧
    (first.open_ = 0 → s.price_change_percentage_1h = 0) ∧
    (first.open_ ≠ 0 →
      s.price_change_percentage_1h = s.price_change_1h / first.open_ * 100) ∧
    (∀ b ∈ first :: rest, b.high_ ≤ s.highest_price_1h) ∧
    s.highest_price_1h ∈ (first :: rest).map (fun b => b.high_) ∧
    (∀ b ∈ first :: rest, s.lowest_price_1h ≤ b.low_) ∧
    s.lowest_price_1h ∈ (first :: rest).map (fun b => b.low_) ∧
    s.total_volume_1h = ((first :: rest).map (fun b => volumeValue b.volume)).sum := by
  rcases hsum : sumVolumes (first :: rest) with _ | tv
  · simp only [get_token_trading_info, hsum, summaryOf] at hs
    exact absurd hs (by simp)
  · simp only [get_token_trading_info, hsum, summaryOf, Option.some_inj] at hs
    subst hs
    refine ⟨rfl, ?_, ?_, ?_, ?_, ?_, ?_, ?_⟩
    · intro h0
      simp [h0]
    · intro h0
      simp [h0]
    · intro b hb
      rcases List.mem_cons.mp hb with rfl | hb
      · exact le_foldl_max _ _
      · exact mem_le_foldl_max _ _ _ (List.mem_map_of_mem _ hb)
    · rcases foldl_max_mem (rest.map (fun b => b.high_)) first.high_ with h | h
      · simp only [List.map_cons, h]
        exact List.mem_cons_self _ _
      · simp only [List.map_cons]
        exact List.mem_cons.mpr (Or.inr h)
    · intro b hb
      rcases List.mem_cons.mp hb with rfl | hb
      · exact foldl_min_le _ _
      · exact foldl_min_le_mem _ _ _ (List.mem_map_of_mem _ hb)
    · rcases foldl_min_mem (rest.map (fun b => b.low_)) first.low_ with h | h
      · simp only [List.map_cons, h]
        exact List.mem_cons_self _ _
      · simp only [List.map_cons]
        exact List.mem_cons.mpr (Or.inr h)
    · have := sumVolumes_fold (first :: rest) 0 tv (by rw [← hsum]; rfl)
      simpa using this

/-- Claim C5, witnessed with a first open of `0`: the percentage is exactly
`0`, with no divide-by-zero fault. -/
theorem claim_C5_witness :
    summaryOf (get_token_trading_info
        [⟨"t1", 0, 5, 1, 3, .num 10⟩, ⟨"t2", 3, 7, 2, 4, .num 20⟩]) =
      some ⟨4, 4, 0, 7, 1, 30⟩ ∧
    (⟨4, 4, 0, 7, 1, 30⟩ : TradeSummary).price_change_percentage_1h = 0 :=
  ⟨by norm_num [get_token_trading_info, sumVolumes, summaryOf],
    (claim_C5 ⟨"t1", 0, 5, 1, 3, .num 10⟩ [⟨"t2", 3, 7, 2, 4, .num 20⟩]
      ⟨4, 4, 0, 7, 1, 30⟩
      (by norm_num [get_token_trading_info, sumVolumes, summaryOf])).2.1 rfl⟩

/-! ## Claims C6 and C7 -/

theorem bucket_time_le_total (a b : OrganizedBucket) :
    bucket_time_le a b = true ∨ bucket_time_le b a = true := by
  unfold bucket_time_le
  rcases le_total a.time b.time with h | h
  · exact Or.inl (decide_eq_true h)
  · exact Or.inr (decide_eq_true h)

theorem bucket_time_le_trans (a b c : OrganizedBucket)
    (hab : bucket_time_le a b = true) (hbc : bucket_time_le b c = true) :
    bucket_time_le a c = true := by
  unfold bucket_time_le at *
  exact decide_eq_true (le_trans (of_decide_eq_true hab) (of_decide_eq_true hbc))

/-- Claim C7: whatever bucket rows the API returns, the sequence produced by
`fetch_and_organize_dex_trade_data` is sorted non-decreasing by `time`. -/
theorem claim_C7 (buckets : List RawTradeBucket) :
    (fetch_and_organize_dex_trade_data buckets).Pairwise
      (fun a b => a.time ≤ b.time) := by
  unfold fetch_and_organize_dex_trade_data
  exact (pairwise_sortByRel bucket_time_le bucket_time_le_total bucket_time_le_trans
    (buckets.map organizeBucket)).imp (fun h => of_decide_eq_true h)

theorem zip_map_self (l : List HolderRecord)
    (g : HolderRecord → List AssetHolding) :
    l.zip (l.map g) = l.map (fun h => (h, g h)) := by
  induction l with
  | nil => rfl
  | cons h t ih => simp [ih]

theorem filter_comm_bool (l : List α) (p q : α → Bool) :
    (l.filter p).filter q = (l.filter q).filter p := by
  rw [List.filter_filter, List.filter_filter]
  exact List.filter_congr (fun a _ => by rw [Bool.and_comm])

/-- Holders whose asset fetch contributes an empty list are invisible to the
`token_map` merge. -/
theorem build_skip (g : HolderRecord → List AssetHolding) (a : String)
    (hg : ∀ h : HolderRecord, h.address = a → g h = []) :
    ∀ (hs : List HolderRecord) (m : List TokenAggregate),
      (hs.map (fun h => (h, g h))).foldl
          (fun m p => p.2.foldl (fun m t => mergeAsset m p.1 t) m) m =
        ((hs.filter (fun h => decide (h.address ≠ a))).map (fun h => (h, g h))).foldl
          (fun m p => p.2.foldl (fun m t => mergeAsset m p.1 t) m) m := by
  intro hs
  induction hs with
  | nil => intro m; rfl
  | cons h t ih =>
    intro m
    by_cases hha : h.address = a
    · have hge : g h = [] := hg h hha
      have hcond : decide (h.address ≠ a) = false := by simp [hha]
      simp only [List.map_cons, List.foldl_cons, hge, List.foldl_nil,
        List.filter_cons, hcond, Bool.false_eq_true, if_false]
      exact ih m
    · have hcond : decide (h.address ≠ a) = true := by simp [hha]
      simp only [List.map_cons, List.foldl_cons, List.filter_cons, hcond,
        if_true]
      exact ih _

/-- Claim C6: `get_wallet_assets` absorbs every upstream failure (transport
error, timeout, falsy or malformed response shape) into an empty asset list,
and consequently a holder whose concurrent fetch fails contributes nothing:
`analyze_holders` returns exactly the ranked result computed from the
remaining holders, with no request-level error. -/
theorem claim_C6 :
    get_wallet_assets .failure = [] ∧
    (∀ resp : HeliusResponse, resp.result = none →
      get_wallet_assets (.ok resp) = []) ∧
    (∀ (resp : HeliusResponse) (r : HeliusResult),
      resp.result = some r → r.items = none →
      get_wallet_assets (.ok resp) = []) ∧
    (∀ (holders : List HolderRecord) (fetch : String → FetchOutcome) (a : String),
      fetch a = .failure →
      analyze_holders holders fetch =
        analyze_holders (holders.filter (fun h => decide (h.address ≠ a))) fetch) := by
  refine ⟨rfl, ?_, ?_, ?_⟩
  · intro resp h
    simp only [get_wallet_assets, h]
  · intro resp r hr hi
    simp only [get_wallet_assets, hr, hi]
  · intro holders fetch a hfail
    have hg : ∀ h : HolderRecord, h.address = a →
        get_wallet_assets (fetch h.address) = [] := by
      intro h hh
      rw [hh, hfail]
      rfl
    rw [analyze_holders_canonical, analyze_holders_canonical]
    by_cases h1 : holders.isEmpty
    · have h1e : holders = [] := List.isEmpty_iff.mp h1
      subst h1e
      simp
    · simp only [h1, if_false]
      by_cases h2 : (holders.filter (fun h => decide (h.address ≠ a))).isEmpty
      · simp only [h2, if_true]
        have hall : ∀ h ∈ holders, h.address = a := by
          have := List.filter_eq_nil_iff.mp (List.isEmpty_iff.mp h2)
          intro h hh
          have hx := this h hh
          simpa using hx
        rw [zip_map_self, build_token_map, build_skip _ a hg]
        have hnil : (holders.filter
            (fun h => decide (h.address ≠ raydium_address))).filter
              (fun h => decide (h.address ≠ a)) = [] := by
          rw [List.filter_eq_nil_iff]
          intro h hh
          simp [hall h (List.mem_of_mem_filter hh)]
        rw [hnil]
        rfl
      · simp only [h2, if_false]
        rw [zip_map_self, zip_map_self, build_token_map, build_token_map,
          build_skip _ a hg, filter_comm_bool]

/-- Claim C6, witnessed: with two holders and the second fetch failing, the
run equals the run on the remaining single holder. -/
theorem claim_C6_witness :
    analyze_holders
        [⟨"w1", 5, "10.00"⟩, ⟨"w2", 3, "6.00"⟩]
        (fun addr =>
          if addr = "w1" then
            .ok ⟨some ⟨some [⟨"T", [], some ⟨some "TK", some ⟨some 1, some 200⟩⟩,
              false⟩], none⟩⟩
          else .failure) =
      analyze_holders
        ([⟨"w1", 5, "10.00"⟩, ⟨"w2", 3, "6.00"⟩].filter
          (fun h => decide (h.address ≠ "w2")))
        (fun addr =>
          if addr = "w1" then
            .ok ⟨some ⟨some [⟨"T", [], some ⟨some "TK", some ⟨some 1, some 200⟩⟩,
              false⟩], none⟩⟩
          else .failure) :=
  claim_C6.2.2.2 _ _ "w2" (by decide)

/-! ## Claim C9: totals count truncated contributors too -/

theorem mergeAsset_invariant (m : List TokenAggregate) (holder : HolderRecord)
    (token : AssetHolding)
    (hm : ∀ e ∈ m, e.total_holding_value = (e.holders.map (fun c => c.total_price)).sum) :
    ∀ e ∈ mergeAsset m holder token,
      e.total_holding_value = (e.holders.map (fun c => c.total_price)).sum := by
  intro e he
  unfold mergeAsset at he
  by_cases hany : m.any (fun e => decide (e.token_address = token.token_address))
  · rw [if_pos hany] at he
    rcases List.mem_map.mp he with ⟨e0, he0, rfl⟩
    by_cases hk : e0.token_address = token.token_address
    · rw [if_pos hk]
      simp [add_contribution, mk_contribution, hm e0 he0]
    · rw [if_neg hk]
      exact hm e0 he0
  · rw [if_neg hany] at he
    rcases List.mem_append.mp he with h | h
    · exact hm e h
    · have : e = add_contribution holder token (new_aggregate token) := by
        simpa using h
      subst this
      simp [add_contribution, new_aggregate, mk_contribution]

theorem foldl_merge_invariant (assets : List AssetHolding) :
    ∀ (m : List TokenAggregate) (holder : HolderRecord),
      (∀ e ∈ m, e.total_holding_value = (e.holders.map (fun c => c.total_price)).sum) →
      ∀ e ∈ assets.foldl (fun m t => mergeAsset m holder t) m,
        e.total_holding_value = (e.holders.map (fun c => c.total_price)).sum := by
  induction assets with
  | nil => intro m holder hm; exact hm
  | cons t ts ih =>
    intro m holder hm
    exact ih _ holder (mergeAsset_invariant m holder t hm)

theorem build_token_map_invariant (pairs : List (HolderRecord × List AssetHolding)) :
    ∀ e ∈ build_token_map pairs,
      e.total_holding_value = (e.holders.map (fun c => c.total_price)).sum := by
  suffices h : ∀ (m : List TokenAggregate),
      (∀ e ∈ m, e.total_holding_value = (e.holders.map (fun c => c.total_price)).sum) →
      ∀ e ∈ pairs.foldl (fun m p => p.2.foldl (fun m t => mergeAsset m p.1 t) m) m,
        e.total_holding_value = (e.holders.map (fun c => c.total_price)).sum by
    exact h [] (by intro e he; cases he)
  induction pairs with
  | nil => intro m hm; exact hm
  | cons p ps ih =>
    intro m hm
    exact ih _ (foldl_merge_invariant p.2 m p.1 hm)

/-- Claim C9: every `token_map` aggregate accumulates `total_holding_value`
as the sum of `total_price` over all contributing holder records (merged
before any truncation), and in a run with six contributors to one token the
returned aggregate keeps that full total while listing only five holders, so
the total strictly exceeds the sum over the listed holders. -/
theorem claim_C9 :
    (∀ pairs : List (HolderRecord × List AssetHolding),
      ∀ e ∈ build_token_map pairs,
        e.total_holding_value = (e.holders.map (fun c => c.total_price)).sum) ∧
    ((analyze_holders
        [⟨"w1", 6, "6"⟩, ⟨"w2", 5, "5"⟩, ⟨"w3", 4, "4"⟩,
         ⟨"w4", 3, "3"⟩, ⟨"w5", 2, "2"⟩, ⟨"w6", 1, "1"⟩]
        (fun _ => .ok ⟨some ⟨some [⟨"T", [], some ⟨some "TK", some ⟨some 1, some 200⟩⟩,
          false⟩], none⟩⟩)).head?.elim False
      (fun t => (t.holders.map (fun c => c.total_price)).sum < t.total_holding_value)) := by
  constructor
  · exact build_token_map_invariant
  · rw [analyze_holders_canonical]
    norm_num +decide [rankAggregates, build_token_map, mergeAsset, add_contribution,
      new_aggregate, mk_contribution, aggregate_le, contribution_le, sortByRel,
      insertSorted, get_wallet_assets, asset_to_holding, passes_price_filter,
      raydium_address, sol_address]

/-- Claim C9, witnessed on a one-pair merge. -/
theorem claim_C9_witness :
    ∀ e ∈ build_token_map [(⟨"w1", 6, "6.00"⟩, [⟨"T", "", "TK", 1, 200⟩])],
      e.total_holding_value = (e.holders.map (fun c => c.total_price)).sum :=
  claim_C9.1 _

/-! ## Claim C10: the native-SOL holding bypasses the asset filters -/

theorem asset_filter_total_price (itm : HeliusItem)
    (h : passes_price_filter itm = true) :
    100 < (asset_to_holding itm).total_price := by
  obtain ⟨iid, cf, tiOpt, mu⟩ := itm
  cases tiOpt with
  | none => exact absurd h (by simp [passes_price_filter])
  | some ti =>
    obtain ⟨sym, piOpt⟩ := ti
    cases piOpt with
    | none => exact absurd h (by simp [passes_price_filter])
    | some pi =>
      have hgt : (100 : ℚ) < pi.total_price.getD 0 := by
        have := h
        simp only [passes_price_filter, decide_eq_true_eq] at this
        exact this
      simpa [asset_to_holding] using hgt

/-- Claim C10: whenever the response carries a native balance, the first
element returned by `get_wallet_assets` is the native-SOL holding built from
it — with no constraint on its `total_price`, so it is included even at `0`
or below the dust threshold — while every other returned element passed both
the dust filter (`total_price > 100`) and the mutability filter. -/
theorem claim_C10 (resp : HeliusResponse) (r : HeliusResult)
    (items : List HeliusItem) (nb : NativeBalance)
    (hr : resp.result = some r) (hi : r.items = some items)
    (hn : r.nativeBalance = some nb) :
    (get_wallet_assets (.ok resp)).head? = some (native_sol_holding nb) ∧
    (∀ x ∈ (get_wallet_assets (.ok resp)).tail, 100 < x.total_price) ∧
    (∀ x ∈ (get_wallet_assets (.ok resp)).tail,
      ∃ item ∈ items, item.mutable = false ∧ passes_price_filter item = true ∧
        x = asset_to_holding item) := by
  have hw : get_wallet_assets (.ok resp) =
      native_sol_holding nb ::
        ((items.filter passes_price_filter).filter
          (fun a => !a.mutable)).map asset_to_holding := by
    simp only [get_wallet_assets, hr, hi, hn]
    rfl
  refine ⟨?_, ?_, ?_⟩
  · rw [hw]
    rfl
  · intro x hx
    rw [hw] at hx
    simp only [List.tail_cons] at hx
    rcases List.mem_map.mp hx with ⟨itm, hmem, rfl⟩
    have h1 := List.mem_filter.mp hmem
    have h2 := List.mem_filter.mp h1.1
    exact asset_filter_total_price itm h2.2
  · intro x hx
    rw [hw] at hx
    simp only [List.tail_cons] at hx
    rcases List.mem_map.mp hx with ⟨itm, hmem, rfl⟩
    have h1 := List.mem_filter.mp hmem
    have h2 := List.mem_filter.mp h1.1
    refine ⟨itm, h2.1, ?_, h2.2, rfl⟩
    simpa using h1.2

/-- Claim C10, witnessed at a response whose native balance has
`total_price = 0`: the zero-value native holding still comes first. -/
theorem claim_C10_witness :
    (get_wallet_assets (.ok ⟨some ⟨some
        [⟨"T1", [], some ⟨some "A", some ⟨some 2, some 500⟩⟩, false⟩,
         ⟨"T2", [], some ⟨some "B", some ⟨some 3, some 500⟩⟩, true⟩,
         ⟨"T3", [], some ⟨some "C", some ⟨some 4, some 50⟩⟩, false⟩],
        some ⟨some 1, some 0⟩⟩⟩)).head? =
      some (native_sol_holding ⟨some 1, some 0⟩) ∧
    (native_sol_holding ⟨some 1, some 0⟩).total_price = 0 :=
  ⟨(claim_C10 _ _ _ _ rfl rfl rfl).1, rfl⟩

/-- Claim C2 (amended), witnessed at direct tool calls whose required
argument is missing: the Sol agent returns the bare `{error}` object built
by its broad `except`, while the same request to the Bitquery agent raises
out of `handle_message` and returns nothing. -/
theorem claim_C2_amended_witness :
    SolWalletAgent.handle_message
        ⟨.returns none, fun _ _ => "", fun _ _ => .emptyObj⟩
        ⟨none, some "get_sol_wallet_assets", [], false⟩ =
      .returns (.errorObj "Error handling message: KeyError: owner_address") [] ∧
    BitqueryAgent.handle_message
        ⟨.returns none, fun _ _ => "", fun _ _ => .emptyObj⟩
        ⟨none, some "get_token_trading_info", [], false⟩ =
      .raised "KeyError: token_address" [] :=
  ⟨(claim_C2_amended
      ⟨.returns none, fun _ _ => "", fun _ _ => .emptyObj⟩
      ⟨.returns none, fun _ _ => "", fun _ _ => .emptyObj⟩
      ⟨none, some "get_sol_wallet_assets", [], false⟩).2.2.2.2.1
      "get_sol_wallet_assets" "owner_address" rfl (by decide) rfl rfl,
   (claim_C2_amended
      ⟨.returns none, fun _ _ => "", fun _ _ => .emptyObj⟩
      ⟨.returns none, fun _ _ => "", fun _ _ => .emptyObj⟩
      ⟨none, some "get_token_trading_info", [], false⟩).2.2.2.2.2
      "get_token_trading_info" "token_address" rfl (by decide) rfl rfl⟩

/-- Claim C7, witnessed at two out-of-order raw buckets. -/
theorem claim_C7_witness :
    (fetch_and_organize_dex_trade_data
        [⟨"2025-01-01T10:05:00Z", 1, 2, 1, 2, some (.numeric 10)⟩,
         ⟨"2025-01-01T10:00:00Z", 1, 2, 1, 2, some (.numeric 20)⟩]).Pairwise
      (fun a b => a.time ≤ b.time) :=
  claim_C7 _
